import Mathlib

/-!
Verification of the git4p4 repository (`_git.py`, `_p4.py`, `git_to_p4.py`).

The development shallowly embeds the decision logic of `git_to_p4.main` and
the tagged-record plumbing of `_p4.run_command`.  External processes (git and
p4) are modelled by an `Oracle` structure holding the responses the program
would read back; the program itself is embedded as pure Lean functions over
that oracle, producing a result together with a trace of the mutating
commands it issues.
-/

namespace Git4P4

/-! ## Model of `_p4.py` tagged records and `run_command` -/

/-- A value in a p4 tagged record (Python dict values: str / int / bool). -/
inductive PVal where
  | str (s : String)
  | int (n : Int)
  | bool (b : Bool)
deriving DecidableEq, Repr

/-- One tagged record from `p4 -G` output, as decoded by `_p4.run_command`
(a Python dict; modelled as an association list). -/
structure PEntry where
  fields : List (String × PVal)
deriving DecidableEq, Repr

/-- Errors raised by `_p4.py`: `P4Error` and `P4EntryNotFound`. -/
inductive P4Exn where
  | p4error
  | entryNotFound
deriving DecidableEq, Repr

/-- `_p4.get_all_code_entries`: keep the records whose `code` field equals
`entry_type`; raise `P4EntryNotFound` when none and `raise_not_found`. -/
def get_all_code_entries (entry_type : String) (outdata : List PEntry)
    (raise_not_found : Bool) : Except P4Exn (List PEntry) :=
  let entries := outdata.filter (fun e => e.fields.lookup "code" = some (.str entry_type))
  if entries = [] ∧ raise_not_found = true then .error .entryNotFound
  else .ok entries

/-- The summary record `{"returncode": returncode, "ok": (returncode == 0)}`
appended by `_p4.run_command` (line 82 of `_p4.py`). -/
def summaryEntry (returncode : Int) : PEntry :=
  ⟨[("returncode", .int returncode), ("ok", .bool (decide (returncode = 0)))]⟩

/-- Return shape of `_p4.run_command`: the whole record stream, or a single
record when `only1` was requested. -/
inductive RunOut where
  | stream (entries : List PEntry)
  | single (e : PEntry)
deriving DecidableEq, Repr

/-- `_p4.run_command`, lines 31-87 of `_p4.py`.  The external process is
summarized by the records it printed (`raw`) and its exit code
(`returncode`); stdin handling and logging have no effect on the returned
data and are omitted. -/
def run_command (raw : List PEntry) (returncode : Int)
    (raise_error : Bool) (only1 : Option String) : Except P4Exn RunOut :=
  if returncode ≠ 0 ∧ raise_error = true then .error .p4error
  else
    let outdata := raw ++ [summaryEntry returncode]
    match only1 with
    | none => .ok (.stream outdata)
    | some t =>
      match get_all_code_entries t outdata true with
      | .error e => .error e
      | .ok entries =>
        match entries.head? with
        | some e => .ok (.single e)
        | none => .error .entryNotFound

/-! ## Data model of `git_to_p4.py` -/

/-- Python `str.strip()`: drop leading and trailing whitespace.  Defined over
the character list so that it evaluates by kernel reduction. -/
def pyStrip (s : String) : String :=
  ⟨((s.data.dropWhile Char.isWhitespace).reverse.dropWhile Char.isWhitespace).reverse⟩

/-- Substring containment over character lists. -/
def containsSub (pat : List Char) : List Char → Bool
  | [] => pat.isEmpty
  | c :: cs => pat.isPrefixOf (c :: cs) || containsSub pat cs

/-- Python `pat in s` on strings. -/
def pyIn (pat s : String) : Bool := containsSub pat.data s.data

/-- One line of `git diff-tree --no-commit-id --name-status -r -M <commit>`:
`stat` is the line's first character (`f[0]` in the source) and `relpaths`
the tab-separated fields after the status (`f.split('\t')[1:]`). -/
structure DiffEntry where
  stat : Char
  relpaths : List String
deriving DecidableEq, Repr

/-- `os.path.join(git_root, relpath)` on a posix system (`os.sep = '/'`,
so the source's `.replace('/', os.sep)` is the identity). -/
def pathJoin (root rel : String) : String := root ++ "/" ++ rel

/-- The `git_file_renamed_from_list` element for one diff entry
(lines 176-183): `None` for non-rename lines, otherwise the joined first
path.  Out-of-range indexing would raise in the source; git never emits
such lines, so the default `""` is unreachable on real input. -/
def entryFromPath (root : String) (e : DiffEntry) : Option String :=
  if e.stat = 'R' then some (pathJoin root (e.relpaths.getD 0 "")) else none

/-- The `git_file_list` element for one diff entry (lines 176-183). -/
def entryPath (root : String) (e : DiffEntry) : String :=
  if e.stat = 'R' then pathJoin root (e.relpaths.getD 1 "")
  else pathJoin root (e.relpaths.getD 0 "")

def git_file_list (root : String) (entries : List DiffEntry) : List String :=
  entries.map (entryPath root)

def git_file_renamed_from_list (root : String) (entries : List DiffEntry) :
    List (Option String) :=
  entries.map (entryFromPath root)

/-- `git_all_files = git_file_list + [f for f in renamed_from if f is not None]`
(line 186). -/
def git_all_files (root : String) (entries : List DiffEntry) : List String :=
  git_file_list root entries ++ (git_file_renamed_from_list root entries).reduceOption

/-- A status character the classification loop (lines 247-259) accepts. -/
def statusKnown (e : DiffEntry) : Bool :=
  e.stat = 'A' || e.stat = 'M' || e.stat = 'R' || e.stat = 'D'

/-- The classification loop reaches the end without the `Unsupported status`
break iff every status character is known. -/
def classifyOk (entries : List DiffEntry) : Bool := entries.all statusKnown

/-- `p4_to_add` (line 248-249).  The source collects into a Python `set`;
encounter order is kept here and duplicates cannot arise from a git diff,
so a list is an equivalent rendering. -/
def p4_to_add (root : String) (entries : List DiffEntry) : List String :=
  (entries.filter (fun e => e.stat = 'A')).map (entryPath root)

/-- `p4_to_edit` (line 250-251). -/
def p4_to_edit (root : String) (entries : List DiffEntry) : List String :=
  (entries.filter (fun e => e.stat = 'M')).map (entryPath root)

/-- `p4_to_delete` (line 254-255). -/
def p4_to_delete (root : String) (entries : List DiffEntry) : List String :=
  (entries.filter (fun e => e.stat = 'D')).map (entryPath root)

/-- `p4_to_rename` (line 252-253): pairs `(old_f, f)`.  For an `R` entry the
renamed-from component is always present. -/
def p4_to_rename (root : String) (entries : List DiffEntry) :
    List (String × String) :=
  (entries.filter (fun e => e.stat = 'R')).map
    (fun e => (pathJoin root (e.relpaths.getD 0 ""), pathJoin root (e.relpaths.getD 1 "")))

/-- One pending changelist as reported by
`p4 changes -l -s pending -c <client>`: its `desc` and `change` fields. -/
structure PendingCl where
  desc : String
  change : String
deriving DecidableEq, Repr

/-- `p4_reusable_cls` (lines 150-153): a dict built by iterating the pending
changelists and assigning `dict[desc.strip()] = change`; a later entry with
the same trimmed description overwrites an earlier one. -/
def buildReuseIndex (cls : List PendingCl) : String → Option String :=
  cls.foldl
    (fun acc c => fun m => if m = pyStrip c.desc then some c.change else acc m)
    (fun _ => none)

/-- Specification reading of the reuse index for comparison: the change id of
the last pending changelist (in the gateway's reported order) whose trimmed
description equals the key. -/
def lastMatch (m : String) : List PendingCl → Option String
  | [] => none
  | c :: rest =>
    match lastMatch m rest with
    | some v => some v
    | none => if m = pyStrip c.desc then some c.change else none

/-- Python truthiness test `if p4_reusable_cl:` on an optional string
(line 195 and 275): `None` and `""` are falsy. -/
def truthy (o : Option String) : Option String :=
  match o with
  | some s => if s = "" then none else some s
  | none => none

/-! ## Oracle for the external git and p4 processes -/

/-- Responses of the two external gateways, read by `git_to_p4.main`.  Query
commands have no side effect the program observes, so they are modelled as
fields/functions; mutating commands are recorded in the run trace instead. -/
structure Oracle where
  /-- `git status --porcelain` output (line 88). -/
  gitStatus : String
  /-- `git rev-parse HEAD` at the start (line 94). -/
  currentHead : String
  /-- `git branch --show-current` (line 95). -/
  currentBranch : String
  /-- `git rev-parse p4` (line 99); `none` models the `GitError` branch. -/
  p4Hash : Option String
  /-- `git var GIT_DEFAULT_BRANCH` (line 106). -/
  defaultBranch : String
  /-- `git rev-parse <default branch>` (line 107). -/
  masterHash : String
  /-- `git rev-list --ancestry-path <range>` (line 117), newest first. -/
  revList : String → List String
  /-- `p4 info` user and client names (lines 129-131). -/
  userName : String
  clientName : String
  /-- depot files of the `stat` records of the global `p4 opened` (line 139). -/
  openedDepot : List String
  /-- local `path` fields of the `stat` records of `p4 where <depot files>`
  (lines 142-144 and 203-206). -/
  whereLocal : List String → List String
  /-- `stat` records of `p4 changes -l -s pending -c <client>` (line 151). -/
  pending : List PendingCl
  /-- `git rev-parse --show-toplevel` (line 156). -/
  gitRoot : String
  /-- `git log --format=%B -n 1 <commit>` (line 167).  The rename-detection
  threshold only alters the external `diff-tree` invocation and is folded
  into this oracle. -/
  msg : String → String
  /-- parsed `git diff-tree --name-status` lines for a commit (line 171). -/
  diff : String → List DiffEntry
  /-- depot files of the `stat` records of `p4 opened -c <cl>` (line 199). -/
  openedInCl : String → List String
  /-- `depotFile` fields of the `stat` records of `p4 fstat <paths>`
  (line 266). -/
  fstatDepot : List String → List String
  /-- changelist id assigned by `p4 change -i` for the commit at the given
  index (lines 286-287). -/
  newClId : Nat → String
  /-- `git rev-parse HEAD` re-read after the final checkouts (line 375). -/
  finalHead : String

/-- The command-line arguments of `git_to_p4.py` after parsing. -/
structure Args where
  range : Option String
  p4_work : Bool
  no_revert : Bool
  no_shelve : Bool
  ignore_opened : Bool
  stay : Bool
  no_p4_branch : Bool
  dry_run : Bool
deriving DecidableEq, Repr

/-- The convenience-flag expansion of `-p`/`--p4-work` (lines 75-78). -/
def applyP4Work (a : Args) : Args :=
  if a.p4_work then { a with no_revert := true, ignore_opened := true, stay := true }
  else a

/-- A state-changing external command issued by the run.  Query commands are
answered by the `Oracle` and not traced. -/
inductive Ev where
  | gitCheckout (ref : String)
  | gitReset (ref : String)
  | p4add (paths : List String)
  | p4edit (paths : List String)
  | p4delete (paths : List String)
  | p4change (desc : String)
  | p4editK (depot : String)
  | p4moveK (old new : String)
  | p4reopen (cl : String) (paths : List String)
  | p4shelve (cl : String)
  | p4revert (cl : String)
deriving DecidableEq, Repr

/-- Mutating target-gateway (p4) calls, as opposed to source (git) ones. -/
def Ev.isP4Mutation : Ev → Bool
  | .gitCheckout _ => false
  | .gitReset _ => false
  | _ => true

def Ev.isRevert : Ev → Bool
  | .p4revert _ => true
  | _ => false

/-! ## Per-commit reconciliation (the body of the main loop, lines 165-339) -/

/-- The fatal per-commit errors that set `ret_status = 1` and `break`. -/
inductive Fatal where
  | reuseMismatch
  | conflict
  | badStatus
deriving DecidableEq, Repr

/-- Reuse-candidate validation, lines 192-221.  Returns the fatal error (if
any) and the final value of `check_file_list`. -/
def stepValidation (o : Oracle) (reuse : String → Option String) (c : String) :
    Option Fatal × Bool :=
  match truthy (reuse (pyStrip (o.msg c))) with
  | none => (none, true)
  | some cl =>
    let openedDep := o.openedInCl cl
    if openedDep = [] then (none, true)
    else
      let openedLocal := o.whereLocal openedDep
      if openedLocal.any
          (fun p => decide (p ∉ git_all_files o.gitRoot (o.diff c))) then
        (some .reuseMismatch, true)
      else (none, false)

/-- The ledger loop of lines 225-231: walk `git_all_files`, recording each
path that is already in `files_in_p4_pending_cls` as a conflict and adding
every path to the ledger.  Returns the new ledger and the conflicts. -/
def ledgerScan (led : List String) : List String → List String × List String
  | [] => (led, [])
  | f :: rest =>
    ((ledgerScan (f :: led) rest).1,
     if f ∈ led then f :: (ledgerScan (f :: led) rest).2
     else (ledgerScan (f :: led) rest).2)

/-- Outcome of the decision part of one loop iteration (everything up to the
`if not args.dry_run:` branch, lines 166-268). -/
inductive Decision where
  | fatal (f : Fatal) (led : List String)
  | exnAbort (led : List String)
  | ok (led : List String)
deriving DecidableEq, Repr

/-- Decision logic of one commit: reuse lookup and validation (lines
192-221), cross-overlap check against the ledger (lines 223-240), file
classification (lines 242-262), and rename depot-identity resolution
(lines 264-268, whose `raise_not_found` lookup raises `P4EntryNotFound`
when `fstat` yields no `stat` record).  None of this reads `args.dry_run`. -/
def commitDecision (o : Oracle) (reuse : String → Option String)
    (led : List String) (c : String) : Decision :=
  let entries := o.diff c
  let allFiles := git_all_files o.gitRoot entries
  match stepValidation o reuse c with
  | (some f, _) => .fatal f led
  | (none, checkFileList) =>
    let scanned := if checkFileList then ledgerScan led allFiles else (led, [])
    if checkFileList = true ∧ scanned.2 ≠ [] then .fatal .conflict scanned.1
    else if classifyOk entries = false then .fatal .badStatus scanned.1
    else if p4_to_rename o.gitRoot entries ≠ [] ∧
            o.fstatDepot ((p4_to_rename o.gitRoot entries).map Prod.fst) = [] then
      .exnAbort scanned.1
    else .ok scanned.1

/-- The changelist id used by the materialization: the reused one, or the id
the `p4 change -i` call returns (lines 275-287). -/
def clIdOf (o : Oracle) (reuse : String → Option String) (idx : Nat)
    (c : String) : String :=
  match truthy (reuse (pyStrip (o.msg c))) with
  | some cl => cl
  | none => o.newClId idx

/-- The `p4 change -i` creation call, issued only when no reusable
changelist was found (lines 275-287). -/
def createEvents (o : Oracle) (reuse : String → Option String) (c : String) :
    List Ev :=
  match truthy (reuse (pyStrip (o.msg c))) with
  | some _ => []
  | none => [Ev.p4change (o.msg c)]

/-- The add/edit/delete open commands, each issued once when its path set is
non-empty, in that order (lines 290-296). -/
def openEvents (adds edits deletes : List String) : List Ev :=
  (if adds ≠ [] then [Ev.p4add adds] else []) ++
  (if edits ≠ [] then [Ev.p4edit edits] else []) ++
  (if deletes ≠ [] then [Ev.p4delete deletes] else [])

/-- The rename loop (lines 300-303): for the `i`-th rename, `p4 edit -k` on
`old_local_to_depot_paths[i]` then `p4 move -k old new`. -/
def renameEvents (olds : List String) : Nat → List (String × String) → List Ev
  | _, [] => []
  | i, (oldPath, newPath) :: rest =>
    Ev.p4editK (olds.getD i "") :: Ev.p4moveK oldPath newPath ::
      renameEvents olds (i + 1) rest

/-- Shelve and revert (lines 309-317): revert only ever runs nested inside
the shelve branch. -/
def shelfEvents (args : Args) (cl : String) : List Ev :=
  if args.no_shelve then []
  else Ev.p4shelve cl :: (if args.no_revert then [] else [Ev.p4revert cl])

/-- Everything the materialization issues before the rename loop: the
checkout (line 272), the optional changelist creation, and the open
commands. -/
def preRenameEvents (o : Oracle) (reuse : String → Option String) (c : String) :
    List Ev :=
  Ev.gitCheckout c ::
    (createEvents o reuse c ++
      openEvents (p4_to_add o.gitRoot (o.diff c)) (p4_to_edit o.gitRoot (o.diff c))
        (p4_to_delete o.gitRoot (o.diff c)))

/-- The full mutating-command trace of one materialized commit
(lines 270-317): checkout, create-or-reuse, opens, renames, the single
`p4 reopen -c <cl> <git_all_files>` (line 306), then shelve/revert. -/
def materializeEvents (args : Args) (o : Oracle) (reuse : String → Option String)
    (idx : Nat) (c : String) : List Ev :=
  let entries := o.diff c
  let renames := p4_to_rename o.gitRoot entries
  let olds := o.fstatDepot (renames.map Prod.fst)
  let cl := clIdOf o reuse idx c
  preRenameEvents o reuse c ++
    renameEvents olds 0 renames ++
    (Ev.p4reopen cl (git_all_files o.gitRoot entries) :: shelfEvents args cl)

/-- Outcome of one full loop iteration. -/
inductive StepOut where
  | fatal (f : Fatal) (led : List String)
  | exnAbort (led : List String)
  | ok (led : List String) (evs : List Ev)
deriving DecidableEq, Repr

def StepOut.ledger : StepOut → List String
  | .fatal _ l => l
  | .exnAbort l => l
  | .ok l _ => l

def StepOut.events : StepOut → List Ev
  | .ok _ evs => evs
  | _ => []

def StepOut.isConflict : StepOut → Bool
  | .fatal .conflict _ => true
  | _ => false

/-- One loop iteration: the decision part, then (on success) either the
materialization commands or, under `--dry-run`, the printed report that
issues no command (lines 270-336). -/
def processCommit (args : Args) (o : Oracle) (reuse : String → Option String)
    (led : List String) (idx : Nat) (c : String) : StepOut :=
  match commitDecision o reuse led c with
  | .fatal f l => .fatal f l
  | .exnAbort l => .exnAbort l
  | .ok l => .ok l (if args.dry_run then [] else materializeEvents args o reuse idx c)

/-! ## The session controller (`main`, lines 19-385) -/

/-- How the commit loop ended. -/
inductive LoopOutcome where
  | success
  | fatalStop (f : Fatal)
  | exnAbort
deriving DecidableEq, Repr

structure LoopResult where
  outcome : LoopOutcome
  lastIdx : Int
  ledger : List String
  trace : List Ev
deriving DecidableEq, Repr

/-- The `for commit_idx, commit in enumerate(commit_list):` loop
(lines 165-339).  `lastIdx` is `last_processed_commit_idx` (starts at -1,
set to the index after each fully processed commit, line 338). -/
def runLoop (args : Args) (o : Oracle) (reuse : String → Option String) :
    List String → Nat → Int → List String → List Ev → LoopResult
  | [], _, last, led, tr => ⟨.success, last, led, tr⟩
  | c :: rest, idx, last, led, tr =>
    match processCommit args o reuse led idx c with
    | .fatal f l => ⟨.fatalStop f, last, l, tr⟩
    | .exnAbort l => ⟨.exnAbort, last, l, tr⟩
    | .ok l evs => runLoop args o reuse rest (idx + 1) idx l (tr ++ evs)

/-- The commit range computation (lines 110-116): an explicit argument
containing `..` is used as-is; otherwise `p4..(argument or default branch)`
with `p4` falling back to `HEAD`.  Python `args.range and ".." in
args.range` also treats an empty string as absent. -/
def hashRangeOf (args : Args) (o : Oracle) : String :=
  let p4h := o.p4Hash.getD "HEAD"
  match args.range with
  | some r =>
    if r ≠ "" ∧ pyIn ".." r = true then r
    else p4h ++ ".." ++ (if r ≠ "" then r else o.defaultBranch)
  | none => p4h ++ ".." ++ o.defaultBranch

/-- Python negative indexing `commit_list[i]` for the in-range indices the
program uses (`-1 ≤ i < len`). -/
def pyGet (l : List String) (i : Int) : String :=
  if 0 ≤ i then l.getD i.toNat "" else l.getD (l.length - (-i).toNat) ""

/-- Observable outcome of one `main()` invocation.  `retVal` is the Python
return value of `main` (`none` models falling off the end, which returns
`None`); `exnAbort` records an uncaught exception; `converted` is the
reported `last_processed_commit_idx + 1` count (0 for the early returns);
`trace` lists the mutating external commands in order. -/
structure MainOut where
  exnAbort : Bool
  retVal : Option Nat
  converted : Nat
  trace : List Ev
deriving DecidableEq, Repr

/-- `git_to_p4.main` (lines 19-381) over the oracle. -/
def mainRun (args0 : Args) (o : Oracle) : MainOut :=
  let args := applyP4Work args0
  -- pre-flight dirty-working-copy check, lines 88-91
  if o.gitStatus ≠ "" then ⟨false, some 1, 0, []⟩
  else
    let commitsRaw := o.revList (hashRangeOf args o)
    -- lines 119-121
    if commitsRaw = [] then ⟨false, some 0, 0, []⟩
    else
      let commits := commitsRaw.reverse
      -- ledger seeding, lines 136-146
      let led0 : List String :=
        if args.ignore_opened then []
        else if o.openedDepot ≠ [] then o.whereLocal o.openedDepot else []
      let reuse := buildReuseIndex o.pending
      let lr := runLoop args o reuse commits 0 (-1) led0 []
      match lr.outcome with
      | .exnAbort => ⟨true, none, 0, lr.trace⟩
      | _ =>
        -- lines 341-357: runs after the loop even when it broke with an error
        let converted := (lr.lastIdx + 1).toNat
        let newP4Head := pyGet commits lr.lastIdx
        let tr2 := lr.trace ++
          (if args.no_p4_branch then []
           else if args.dry_run then []
           else [Ev.gitCheckout "p4", Ev.gitReset newP4Head])
        -- lines 359-369
        let returnHash := if o.currentBranch ≠ "" then o.currentBranch else o.currentHead
        let tr3 := tr2 ++
          (if returnHash ≠ "" ∧ args.stay = false then
            (if args.dry_run then [] else [Ev.gitCheckout returnHash])
           else [])
        -- lines 371-381
        let tr4 := tr3 ++
          (if args.no_p4_branch = false ∧ o.finalHead = o.masterHash then
            (if args.dry_run then [] else [Ev.gitCheckout o.defaultBranch])
           else [])
        ⟨false, none, converted, tr4⟩

/-- The `if __name__ == '__main__': main()` guard (lines 384-385) discards
`main`'s return value, so the interpreter exits 0 whenever `main` returns;
an uncaught exception makes Python exit with status 1. -/
def processExit (m : MainOut) : Nat := if m.exnAbort then 1 else 0

/-! ## Concrete fixtures used to instantiate the theorems -/

/-- All flags off, no range argument. -/
def defaultArgs : Args := ⟨none, false, false, false, false, false, false, false⟩

/-- A minimal world: a clean working copy, one commit `c1` with message `m`
adding `x`, no files opened in p4, no pending changelists. -/
def baseOracle : Oracle where
  gitStatus := ""
  currentHead := "h0"
  currentBranch := "main"
  p4Hash := some "p4h"
  defaultBranch := "master"
  masterHash := "mh"
  revList := fun _ => ["c1"]
  userName := "u"
  clientName := "cli"
  openedDepot := []
  whereLocal := fun ds => ds
  pending := []
  gitRoot := "r"
  msg := fun _ => "m"
  diff := fun _ => [⟨'A', ["x"]⟩]
  openedInCl := fun _ => []
  fstatDepot := fun ps => ps
  newClId := fun i => toString i
  finalHead := "h0"

/-- Two commits: `c1` (message `m1`) adds `a.txt`; `c2` (message `m2`)
modifies `a.txt` and matches pending changelist `77` whose opened files map
back to exactly `r/a.txt` — the validated-reuse path. -/
def reuseSkipOracle : Oracle := { baseOracle with
  revList := fun _ => ["c2", "c1"]
  whereLocal := fun ds => ds.map (fun d => if d = "//depot/a.txt" then "r/a.txt" else d)
  pending := [⟨"m2", "77"⟩]
  msg := fun c => if c = "c1" then "m1" else "m2"
  diff := fun c => if c = "c1" then [⟨'A', ["a.txt"]⟩] else [⟨'M', ["a.txt"]⟩]
  openedInCl := fun cl => if cl = "77" then ["//depot/a.txt"] else [] }

/-- One commit whose message matches pending changelist `5` with an empty
opened-file set, while its sole file `r/x` is already opened in another
changelist (the global `opened` query reports it). -/
def emptyReuseOracle : Oracle := { baseOracle with
  openedDepot := ["//d/x"]
  whereLocal := fun ds => ds.map (fun d => if d = "//d/x" then "r/x" else d)
  pending := [⟨"m", "5"⟩] }

/-- A dirty source working copy: `git status --porcelain` is non-empty. -/
def dirtyOracle : Oracle := { baseOracle with gitStatus := " M foo.txt" }

/-- One commit whose sole file is already opened in p4 (seeded into the
ledger), with no reusable changelist: the first commit conflicts and zero
commits are converted. -/
def conflictOracle : Oracle := { baseOracle with
  openedDepot := ["//d/x"]
  whereLocal := fun ds => ds.map (fun d => if d = "//d/x" then "r/x" else d) }

/-- One commit with a single rename `x -> y`. -/
def renameOracle : Oracle := { baseOracle with
  diff := fun _ => [⟨'R', ["x", "y"]⟩] }

/-- A run whose computed commit range is empty. -/
def emptyRangeOracle : Oracle := { baseOracle with revList := fun _ => [] }

/-- Arguments with `--no-shelve` set. -/
def noShelveArgs : Args := { defaultArgs with no_shelve := true }

/-- The `p4 edit -k` call issued by the rename loop (not the open-for-edit
of modified files, which is `Ev.p4edit`). -/
def isEditK : Ev → Bool
  | .p4editK _ => true
  | _ => false

/-- The `p4 move -k` call issued by the rename loop. -/
def isMoveK : Ev → Bool
  | .p4moveK _ _ => true
  | _ => false

/-! ## Helper lemmas -/

theorem ledgerScan_mem_fst (f : String) :
    ∀ (files led : List String), f ∈ files ∨ f ∈ led → f ∈ (ledgerScan led files).1 := by
  intro files
  induction files with
  | nil =>
    intro led h
    simpa [ledgerScan] using h.resolve_left (by simp)
  | cons g rest ih =>
    intro led h
    simp only [ledgerScan]
    rcases h with hf | hl
    · rcases List.mem_cons.mp hf with rfl | hf
      · exact ih _ (Or.inr (List.mem_cons_self _ _))
      · exact ih _ (Or.inl hf)
    · exact ih _ (Or.inr (List.mem_cons_of_mem _ hl))

theorem ledgerScan_conflict_ne_nil (f : String) :
    ∀ (files led : List String), f ∈ files → f ∈ led → (ledgerScan led files).2 ≠ [] := by
  intro files
  induction files with
  | nil => intro led hf _; simp at hf
  | cons g rest ih =>
    intro led hf hl
    simp only [ledgerScan]
    rcases List.mem_cons.mp hf with rfl | hf
    · simp [hl]
    · have h2 := ih (g :: led) hf (List.mem_cons_of_mem _ hl)
      split
      · simp
      · exact h2

theorem buildReuseIndex_foldl (cls : List PendingCl) (m : String) :
    ∀ (g : String → Option String),
      (cls.foldl
        (fun acc c => fun s => if s = pyStrip c.desc then some c.change else acc s) g) m
        = match lastMatch m cls with
          | some v => some v
          | none => g m := by
  induction cls with
  | nil => intro g; simp [lastMatch]
  | cons c rest ih =>
    intro g
    simp only [List.foldl_cons, lastMatch]
    rw [ih]
    cases h : lastMatch m rest <;> simp [h]
    split <;> simp

theorem processCommit_dry (args : Args) (o : Oracle) (reuse : String → Option String)
    (led : List String) (idx : Nat) (c : String) :
    processCommit { args with dry_run := true } o reuse led idx c
      = match processCommit { args with dry_run := false } o reuse led idx c with
        | .ok l _ => .ok l []
        | out => out := by
  unfold processCommit
  cases commitDecision o reuse led c <;> simp

theorem runLoop_trace_append (args : Args) (o : Oracle) (reuse : String → Option String) :
    ∀ (cs : List String) (idx : Nat) (last : Int) (led : List String) (tr : List Ev),
      runLoop args o reuse cs idx last led tr
        = { runLoop args o reuse cs idx last led [] with
            trace := tr ++ (runLoop args o reuse cs idx last led []).trace } := by
  intro cs
  induction cs with
  | nil => intro idx last led tr; simp [runLoop]
  | cons c rest ih =>
    intro idx last led tr
    simp only [runLoop]
    cases h : processCommit args o reuse led idx c with
    | fatal f l => simp
    | exnAbort l => simp
    | ok l evs =>
      dsimp only
      rw [ih (idx + 1) idx l (tr ++ evs), ih (idx + 1) idx l ([] ++ evs)]
      simp

theorem runLoop_dry (args : Args) (o : Oracle) (reuse : String → Option String) :
    ∀ (cs : List String) (idx : Nat) (last : Int) (led : List String) (tr : List Ev),
      runLoop { args with dry_run := true } o reuse cs idx last led tr
        = { runLoop { args with dry_run := false } o reuse cs idx last led tr with
            trace := tr } := by
  intro cs
  induction cs with
  | nil => intro idx last led tr; rfl
  | cons c rest ih =>
    intro idx last led tr
    simp only [runLoop, processCommit_dry args o reuse led idx c]
    cases h : processCommit { args with dry_run := false } o reuse led idx c with
    | fatal f l => simp
    | exnAbort l => simp
    | ok l evs =>
      dsimp only
      rw [List.append_nil, ih (idx + 1) idx l tr]
      rw [runLoop_trace_append _ o reuse rest (idx + 1) idx l tr,
          runLoop_trace_append _ o reuse rest (idx + 1) idx l (tr ++ evs)]

theorem applyP4Work_dry (a : Args) (b : Bool) :
    applyP4Work { a with dry_run := b } = { applyP4Work a with dry_run := b } := by
  unfold applyP4Work
  by_cases h : a.p4_work <;> simp [h]

theorem hashRangeOf_dry (a : Args) (b : Bool) (o : Oracle) :
    hashRangeOf { a with dry_run := b } o = hashRangeOf a o := rfl

theorem args_dry_ignore (a : Args) (b : Bool) :
    ({ a with dry_run := b } : Args).ignore_opened = a.ignore_opened := rfl

theorem args_dry_no_p4_branch (a : Args) (b : Bool) :
    ({ a with dry_run := b } : Args).no_p4_branch = a.no_p4_branch := rfl

theorem args_dry_stay (a : Args) (b : Bool) :
    ({ a with dry_run := b } : Args).stay = a.stay := rfl

theorem args_dry_dry (a : Args) (b : Bool) :
    ({ a with dry_run := b } : Args).dry_run = b := rfl

theorem mainRun_dry (args : Args) (o : Oracle) :
    mainRun { args with dry_run := true } o
      = { mainRun { args with dry_run := false } o with trace := [] } := by
  simp only [mainRun, applyP4Work_dry, hashRangeOf_dry, args_dry_ignore,
    args_dry_no_p4_branch, args_dry_stay, args_dry_dry, runLoop_dry, if_true, if_false]
  split
  · rfl
  · split
    · rfl
    · cases hout : (runLoop { applyP4Work args with dry_run := false } o
          (buildReuseIndex o.pending)
          (o.revList (hashRangeOf (applyP4Work args) o)).reverse 0 (-1)
          (if (applyP4Work args).ignore_opened then []
           else if o.openedDepot ≠ [] then o.whereLocal o.openedDepot else []) []).outcome <;>
        simp [hout]

theorem renameEvents_length (olds : List String) :
    ∀ (rs : List (String × String)) (i : Nat),
      (renameEvents olds i rs).length = 2 * rs.length := by
  intro rs
  induction rs with
  | nil => intro i; rfl
  | cons p rest ih =>
    intro i
    obtain ⟨a, b⟩ := p
    simp only [renameEvents, List.length_cons, ih (i + 1), List.length]
    omega

theorem renameEvents_getElem (olds : List String) :
    ∀ (rs : List (String × String)) (i j : Nat) (r : String × String),
      rs[j]? = some r →
      (renameEvents olds i rs)[2 * j]? = some (Ev.p4editK (olds.getD (i + j) ""))
      ∧ (renameEvents olds i rs)[2 * j + 1]? = some (Ev.p4moveK r.1 r.2) := by
  intro rs
  induction rs with
  | nil => intro i j r h; simp at h
  | cons p rest ih =>
    intro i j r h
    obtain ⟨a, b⟩ := p
    cases j with
    | zero =>
      simp only [List.getElem?_cons_zero, Option.some.injEq] at h
      subst h
      simp [renameEvents]
    | succ j' =>
      have h' : rest[j']? = some r := by simpa using h
      have hr := ih (i + 1) j' r h'
      have harith : i + (j' + 1) = (i + 1) + j' := by omega
      have hmul : 2 * (j' + 1) = 2 * j' + 2 := by omega
      rw [hmul, harith]
      constructor
      · simpa [renameEvents] using hr.1
      · simpa [renameEvents] using hr.2

theorem mem_renameEvents (olds : List String) :
    ∀ (rs : List (String × String)) (i : Nat) (e : Ev), e ∈ renameEvents olds i rs →
      (∃ d, e = Ev.p4editK d) ∨ ∃ a b, e = Ev.p4moveK a b := by
  intro rs
  induction rs with
  | nil => intro i e h; simp [renameEvents] at h
  | cons p rest ih =>
    intro i e h
    obtain ⟨a, b⟩ := p
    simp only [renameEvents, List.mem_cons] at h
    rcases h with rfl | rfl | h
    · exact Or.inl ⟨_, rfl⟩
    · exact Or.inr ⟨_, _, rfl⟩
    · exact ih (i + 1) e h

theorem mem_createEvents (o : Oracle) (reuse : String → Option String) (c : String) (e : Ev)
    (h : e ∈ createEvents o reuse c) : e = Ev.p4change (o.msg c) := by
  cases htr : truthy (reuse (pyStrip (o.msg c))) with
  | none =>
    simp only [createEvents, htr, List.mem_singleton] at h
    exact h
  | some cl => simp [createEvents, htr] at h

theorem mem_openEvents (adds edits deletes : List String) (e : Ev)
    (h : e ∈ openEvents adds edits deletes) :
    e = Ev.p4add adds ∨ e = Ev.p4edit edits ∨ e = Ev.p4delete deletes := by
  unfold openEvents at h
  simp only [List.mem_append] at h
  rcases h with (h | h) | h <;> (split at h <;> simp_all)

theorem mem_shelfEvents (args : Args) (cl : String) (e : Ev)
    (h : e ∈ shelfEvents args cl) :
    (args.no_shelve = false ∧ e = Ev.p4shelve cl) ∨
    (args.no_shelve = false ∧ args.no_revert = false ∧ e = Ev.p4revert cl) := by
  unfold shelfEvents at h
  split at h
  · simp at h
  · next hns =>
    simp only [List.mem_cons] at h
    rcases h with rfl | h
    · exact Or.inl ⟨by simpa using hns, rfl⟩
    · split at h
      · simp at h
      · next hnr =>
        simp only [List.mem_singleton] at h
        exact Or.inr ⟨by simpa using hns, by simpa using hnr, h⟩

theorem shelve_mem_shelfEvents (args : Args) (cl : String) (h : args.no_shelve = false) :
    Ev.p4shelve cl ∈ shelfEvents args cl := by
  simp [shelfEvents, h]

theorem mem_preRenameEvents (o : Oracle) (reuse : String → Option String) (c : String) (e : Ev)
    (h : e ∈ preRenameEvents o reuse c) :
    e = Ev.gitCheckout c ∨ e = Ev.p4change (o.msg c) ∨
    e = Ev.p4add (p4_to_add o.gitRoot (o.diff c)) ∨
    e = Ev.p4edit (p4_to_edit o.gitRoot (o.diff c)) ∨
    e = Ev.p4delete (p4_to_delete o.gitRoot (o.diff c)) := by
  unfold preRenameEvents at h
  simp only [List.mem_cons, List.mem_append] at h
  rcases h with rfl | h | h
  · exact Or.inl rfl
  · exact Or.inr (Or.inl (mem_createEvents _ _ _ _ h))
  · have := mem_openEvents _ _ _ _ h
    tauto

theorem mem_materializeEvents (args : Args) (o : Oracle) (reuse : String → Option String)
    (idx : Nat) (c : String) (e : Ev) (h : e ∈ materializeEvents args o reuse idx c) :
    e ∈ preRenameEvents o reuse c ∨
    e ∈ renameEvents (o.fstatDepot ((p4_to_rename o.gitRoot (o.diff c)).map Prod.fst)) 0
          (p4_to_rename o.gitRoot (o.diff c)) ∨
    e = Ev.p4reopen (clIdOf o reuse idx c) (git_all_files o.gitRoot (o.diff c)) ∨
    e ∈ shelfEvents args (clIdOf o reuse idx c) := by
  unfold materializeEvents at h
  simp only [List.mem_append, List.mem_cons] at h
  tauto

theorem revert_mem_materialize (args : Args) (o : Oracle) (reuse : String → Option String)
    (idx : Nat) (c : String) (cl' : String)
    (h : Ev.p4revert cl' ∈ materializeEvents args o reuse idx c) :
    args.no_shelve = false ∧ args.no_revert = false ∧ cl' = clIdOf o reuse idx c := by
  rcases mem_materializeEvents args o reuse idx c _ h with h | h | h | h
  · rcases mem_preRenameEvents o reuse c _ h with h | h | h | h | h <;> simp at h
  · rcases mem_renameEvents _ _ _ _ h with ⟨d, hd⟩ | ⟨a, b, hab⟩ <;> simp_all
  · simp at h
  · rcases mem_shelfEvents args _ _ h with ⟨_, he⟩ | ⟨hns, hnr, he⟩
    · simp at he
    · exact ⟨hns, hnr, by simpa using he⟩

theorem materialize_no_revert (args : Args) (o : Oracle) (reuse : String → Option String)
    (idx : Nat) (c : String) (hs : args.no_shelve = true) :
    (materializeEvents args o reuse idx c).all (fun e => !e.isRevert) = true := by
  rw [List.all_eq_true]
  intro e he
  cases e with
  | p4revert cl' =>
    have h1 := (revert_mem_materialize args o reuse idx c cl' he).1
    rw [hs] at h1
    exact absurd h1 (by simp)
  | gitCheckout ref => rfl
  | gitReset ref => rfl
  | p4add ps => rfl
  | p4edit ps => rfl
  | p4delete ps => rfl
  | p4change d => rfl
  | p4editK d => rfl
  | p4moveK a b => rfl
  | p4reopen cl ps => rfl
  | p4shelve cl => rfl

theorem runLoop_no_revert (args : Args) (o : Oracle) (reuse : String → Option String)
    (hs : args.no_shelve = true) :
    ∀ (cs : List String) (idx : Nat) (last : Int) (led : List String) (tr : List Ev),
      tr.all (fun e => !e.isRevert) = true →
      (runLoop args o reuse cs idx last led tr).trace.all (fun e => !e.isRevert) = true := by
  intro cs
  induction cs with
  | nil => intro idx last led tr htr; exact htr
  | cons c rest ih =>
    intro idx last led tr htr
    simp only [runLoop]
    cases h : processCommit args o reuse led idx c with
    | fatal f l => exact htr
    | exnAbort l => exact htr
    | ok l evs =>
      dsimp only
      refine ih (idx + 1) idx l (tr ++ evs) ?_
      rw [List.all_append]
      refine (Bool.and_eq_true _ _).mpr ⟨htr, ?_⟩
      unfold processCommit at h
      cases hd : commitDecision o reuse led c with
      | fatal f l2 =>
        rw [hd] at h
        exact absurd h (by simp)
      | exnAbort l2 =>
        rw [hd] at h
        exact absurd h (by simp)
      | ok l2 =>
        rw [hd] at h
        dsimp only at h
        injection h with h1 h2
        rw [← h2]
        split
        · rfl
        · exact materialize_no_revert args o reuse idx c hs

theorem applyP4Work_no_shelve (a : Args) : (applyP4Work a).no_shelve = a.no_shelve := by
  unfold applyP4Work
  split <;> rfl

theorem mainRun_no_revert (args : Args) (o : Oracle) (hs : args.no_shelve = true) :
    (mainRun args o).trace.all (fun e => !e.isRevert) = true := by
  have hs' : (applyP4Work args).no_shelve = true := by
    rw [applyP4Work_no_shelve]; exact hs
  unfold mainRun
  split
  · rfl
  · dsimp only
    split
    · rfl
    · split
      · dsimp only
        exact runLoop_no_revert _ o _ hs' _ 0 (-1) _ [] rfl
      · dsimp only
        simp only [List.all_append, Bool.and_eq_true]
        refine ⟨⟨⟨?_, ?_⟩, ?_⟩, ?_⟩
        · exact runLoop_no_revert _ o _ hs' _ 0 (-1) _ [] rfl
        · repeat' split
          all_goals rfl
        · repeat' split
          all_goals rfl
        · repeat' split
          all_goals rfl

theorem commitDecision_conflict (o : Oracle) (reuse : String → Option String)
    (led : List String) (c : String)
    (hval : stepValidation o reuse c = (none, true))
    (hc : (ledgerScan led (git_all_files o.gitRoot (o.diff c))).2 ≠ []) :
    commitDecision o reuse led c
      = .fatal .conflict (ledgerScan led (git_all_files o.gitRoot (o.diff c))).1 := by
  unfold commitDecision
  rw [hval]
  simp [hc]

theorem commitDecision_ok_ledger (o : Oracle) (reuse : String → Option String)
    (led : List String) (c : String)
    (hval : stepValidation o reuse c = (none, true))
    (l : List String) (hok : commitDecision o reuse led c = .ok l) :
    l = (ledgerScan led (git_all_files o.gitRoot (o.diff c))).1 := by
  unfold commitDecision at hok
  rw [hval] at hok
  simp only [if_true, eq_self_iff_true, true_and] at hok
  split at hok
  · exact absurd hok (by simp)
  · split at hok
    · exact absurd hok (by simp)
    · split at hok
      · exact absurd hok (by simp)
      · injection hok with h
        exact h.symm

theorem commitDecision_reuseMismatch (o : Oracle) (reuse : String → Option String)
    (led : List String) (c : String)
    (hval : stepValidation o reuse c = (some .reuseMismatch, true)) :
    commitDecision o reuse led c = .fatal .reuseMismatch led := by
  unfold commitDecision
  rw [hval]

theorem commitDecision_ok_noCheck (o : Oracle) (reuse : String → Option String)
    (led : List String) (c : String)
    (hval : stepValidation o reuse c = (none, false))
    (l : List String) (hok : commitDecision o reuse led c = .ok l) : l = led := by
  unfold commitDecision at hok
  rw [hval] at hok
  simp only [Bool.false_eq_true, false_and, if_false, ite_false] at hok
  split at hok
  · exact absurd hok (by simp)
  · split at hok
    · exact absurd hok (by simp)
    · injection hok with h
      exact h.symm

theorem renameEvents_countP_edit (olds : List String) :
    ∀ (rs : List (String × String)) (i : Nat),
      (renameEvents olds i rs).countP isEditK = rs.length := by
  intro rs
  induction rs with
  | nil => intro i; rfl
  | cons p rest ih =>
    intro i
    obtain ⟨a, b⟩ := p
    simp [renameEvents, List.countP_cons, ih (i + 1), isEditK]

theorem renameEvents_countP_move (olds : List String) :
    ∀ (rs : List (String × String)) (i : Nat),
      (renameEvents olds i rs).countP isMoveK = rs.length := by
  intro rs
  induction rs with
  | nil => intro i; rfl
  | cons p rest ih =>
    intro i
    obtain ⟨a, b⟩ := p
    simp [renameEvents, List.countP_cons, ih (i + 1), isMoveK]

theorem preRenameEvents_countP_edit (o : Oracle) (reuse : String → Option String) (c : String) :
    (preRenameEvents o reuse c).countP isEditK = 0 := by
  rw [List.countP_eq_zero]
  intro e he
  rcases mem_preRenameEvents o reuse c e he with rfl | rfl | rfl | rfl | rfl <;> simp [isEditK]

theorem preRenameEvents_countP_move (o : Oracle) (reuse : String → Option String) (c : String) :
    (preRenameEvents o reuse c).countP isMoveK = 0 := by
  rw [List.countP_eq_zero]
  intro e he
  rcases mem_preRenameEvents o reuse c e he with rfl | rfl | rfl | rfl | rfl <;> simp [isMoveK]

theorem shelfEvents_countP_edit (args : Args) (cl : String) :
    (shelfEvents args cl).countP isEditK = 0 := by
  rw [List.countP_eq_zero]
  intro e he
  rcases mem_shelfEvents args cl e he with ⟨_, rfl⟩ | ⟨_, _, rfl⟩ <;> simp [isEditK]

theorem shelfEvents_countP_move (args : Args) (cl : String) :
    (shelfEvents args cl).countP isMoveK = 0 := by
  rw [List.countP_eq_zero]
  intro e he
  rcases mem_shelfEvents args cl e he with ⟨_, rfl⟩ | ⟨_, _, rfl⟩ <;> simp [isMoveK]

theorem map_filter_entryPath_subset (root : String) (q : DiffEntry → Bool)
    (entries : List DiffEntry) :
    ((entries.filter q).map (entryPath root)) ⊆ git_all_files root entries := by
  intro x hx
  simp only [List.mem_map, List.mem_filter] at hx
  obtain ⟨e, ⟨he, _⟩, rfl⟩ := hx
  unfold git_all_files git_file_list
  exact List.mem_append_left _ (List.mem_map_of_mem _ he)

theorem rename_snd_mem (root : String) (entries : List DiffEntry) (r : String × String)
    (h : r ∈ p4_to_rename root entries) : r.2 ∈ git_all_files root entries := by
  unfold p4_to_rename at h
  simp only [List.mem_map, List.mem_filter, decide_eq_true_eq] at h
  obtain ⟨e, ⟨he, hR⟩, rfl⟩ := h
  have hpath : entryPath root e = pathJoin root (e.relpaths.getD 1 "") := by
    unfold entryPath
    rw [if_pos hR]
  unfold git_all_files git_file_list
  refine List.mem_append_left _ ?_
  simp only [List.mem_map]
  exact ⟨e, he, hpath⟩

theorem materializeEvents_eq (args : Args) (o : Oracle) (reuse : String → Option String)
    (idx : Nat) (c : String) :
    materializeEvents args o reuse idx c
      = preRenameEvents o reuse c ++
        (renameEvents (o.fstatDepot ((p4_to_rename o.gitRoot (o.diff c)).map Prod.fst)) 0
            (p4_to_rename o.gitRoot (o.diff c)) ++
          (Ev.p4reopen (clIdOf o reuse idx c) (git_all_files o.gitRoot (o.diff c)) ::
            shelfEvents args (clIdOf o reuse idx c))) := by
  unfold materializeEvents
  simp [List.append_assoc]

/-! ## Claim theorems -/

/-- C1 (amended): for every commit processed with the cross-overlap check
enabled (`stepValidation` returns no error with `check_file_list = true`,
i.e. no reuse candidate was found or the candidate's opened set is empty):
if the commit succeeds, every touched path (destinations plus rename
sources, `git_all_files`) is in the resulting ledger; if any touched path is
already in the ledger the commit fails with a fatal conflict; and a commit
failing that way stops the loop with the trace unchanged, so no mutating
command is issued for it.  (The original claim, which asserts this for every
commit unconditionally, is refuted by `claim1_counterexample`.) -/
theorem claim1_ledger_insertion_and_conflict (args : Args) (o : Oracle) (reuse : String → Option String)
    (led : List String) (idx : Nat) (c : String)
    (hval : stepValidation o reuse c = (none, true)) :
    (∀ (l : List String) (evs : List Ev),
        processCommit args o reuse led idx c = .ok l evs →
        ∀ f ∈ git_all_files o.gitRoot (o.diff c), f ∈ l)
  ∧ (∀ f ∈ git_all_files o.gitRoot (o.diff c), f ∈ led →
        processCommit args o reuse led idx c
          = .fatal .conflict (ledgerScan led (git_all_files o.gitRoot (o.diff c))).1)
  ∧ (∀ (rest : List String) (last : Int) (tr : List Ev),
        processCommit args o reuse led idx c
          = .fatal .conflict (ledgerScan led (git_all_files o.gitRoot (o.diff c))).1 →
        runLoop args o reuse (c :: rest) idx last led tr
          = ⟨.fatalStop .conflict, last,
              (ledgerScan led (git_all_files o.gitRoot (o.diff c))).1, tr⟩) := by
  refine ⟨?_, ?_, ?_⟩
  · intro l evs hok f hf
    unfold processCommit at hok
    cases hd : commitDecision o reuse led c with
    | fatal g l2 => rw [hd] at hok; exact absurd hok (by simp)
    | exnAbort l2 => rw [hd] at hok; exact absurd hok (by simp)
    | ok l2 =>
      rw [hd] at hok
      dsimp only at hok
      injection hok with h1 h2
      rw [← h1, commitDecision_ok_ledger o reuse led c hval l2 hd]
      exact ledgerScan_mem_fst f _ led (Or.inl hf)
  · intro f hf hmem
    have hc := ledgerScan_conflict_ne_nil f (git_all_files o.gitRoot (o.diff c)) led hf hmem
    unfold processCommit
    rw [commitDecision_conflict o reuse led c hval hc]
  · intro rest last tr h
    simp only [runLoop]
    rw [h]

/-- C1 witness: a commit adding `r/x` while `r/x` is already in the ledger is
rejected with a fatal conflict. -/
theorem claim1_ledger_insertion_and_conflict_witness :
    processCommit defaultArgs baseOracle (buildReuseIndex baseOracle.pending) ["r/x"] 0 "c1"
      = .fatal .conflict
          (ledgerScan ["r/x"] (git_all_files baseOracle.gitRoot (baseOracle.diff "c1"))).1 :=
  (claim1_ledger_insertion_and_conflict defaultArgs baseOracle
    (buildReuseIndex baseOracle.pending) ["r/x"] 0 "c1" (by decide)).2.1 "r/x"
    (by decide) (by decide)

/-- C1 counterexample: commit `c2` touches `r/a.txt`, which commit `c1` put
into the ledger, yet because `c2` reuses a validated non-empty changelist the
cross-overlap check is skipped: no conflict is raised, mutating commands are
issued for `c2`, the run converts both commits, and `c2`'s paths are never
inserted into the ledger (processed against ledger `["z"]`, the ledger stays
`["z"]`).  This refutes the claim that every commit's paths are inserted
exactly once and that any later commit touching a ledger path conflicts. -/
theorem claim1_counterexample :
    "r/a.txt" ∈ (processCommit defaultArgs reuseSkipOracle
        (buildReuseIndex reuseSkipOracle.pending) [] 0 "c1").ledger
  ∧ "r/a.txt" ∈ git_all_files reuseSkipOracle.gitRoot (reuseSkipOracle.diff "c2")
  ∧ (processCommit defaultArgs reuseSkipOracle
        (buildReuseIndex reuseSkipOracle.pending) ["r/a.txt"] 1 "c2").isConflict = false
  ∧ Ev.p4edit ["r/a.txt"] ∈ (processCommit defaultArgs reuseSkipOracle
        (buildReuseIndex reuseSkipOracle.pending) ["r/a.txt"] 1 "c2").events
  ∧ (processCommit defaultArgs reuseSkipOracle
        (buildReuseIndex reuseSkipOracle.pending) ["z"] 1 "c2").ledger = ["z"]
  ∧ (mainRun defaultArgs reuseSkipOracle).converted = 2 := by
  decide

/-- C2 (amended): when a reuse candidate is found: a non-empty opened set
with a file outside the commit's file set fails the whole run fatally; a
non-empty opened set that is a subset of the commit's file set makes reuse
proceed with the cross-overlap check skipped (the ledger is left untouched);
but an empty opened set leaves `check_file_list = true`, i.e. reuse proceeds
and the cross-overlap check still runs — not skipped as the original claim
states (refuted by `claim2_counterexample`). -/
theorem claim2_reuse_validation (o : Oracle) (reuse : String → Option String) (c : String) (cl : String)
    (hfound : truthy (reuse (pyStrip (o.msg c))) = some cl) :
    (o.openedInCl cl ≠ [] →
      (o.whereLocal (o.openedInCl cl)).any
          (fun p => decide (p ∉ git_all_files o.gitRoot (o.diff c))) = true →
      stepValidation o reuse c = (some .reuseMismatch, true)
      ∧ ∀ (args : Args) (led : List String) (idx : Nat),
          processCommit args o reuse led idx c = .fatal .reuseMismatch led)
  ∧ (o.openedInCl cl ≠ [] →
      (o.whereLocal (o.openedInCl cl)).any
          (fun p => decide (p ∉ git_all_files o.gitRoot (o.diff c))) = false →
      stepValidation o reuse c = (none, false)
      ∧ ∀ (args : Args) (led : List String) (idx : Nat) (l : List String) (evs : List Ev),
          processCommit args o reuse led idx c = .ok l evs → l = led)
  ∧ (o.openedInCl cl = [] → stepValidation o reuse c = (none, true)) := by
  refine ⟨?_, ?_, ?_⟩
  · intro hne hany
    have hsv : stepValidation o reuse c = (some .reuseMismatch, true) := by
      unfold stepValidation
      rw [hfound]
      dsimp only
      rw [if_neg hne, if_pos hany]
    refine ⟨hsv, ?_⟩
    intro args led idx
    unfold processCommit
    rw [commitDecision_reuseMismatch o reuse led c hsv]
  · intro hne hany
    have hsv : stepValidation o reuse c = (none, false) := by
      unfold stepValidation
      rw [hfound]
      dsimp only
      rw [if_neg hne, if_neg (by rw [hany]; simp)]
    refine ⟨hsv, ?_⟩
    intro args led idx l evs hok
    unfold processCommit at hok
    cases hd : commitDecision o reuse led c with
    | fatal g l2 => rw [hd] at hok; exact absurd hok (by simp)
    | exnAbort l2 => rw [hd] at hok; exact absurd hok (by simp)
    | ok l2 =>
      rw [hd] at hok
      dsimp only at hok
      injection hok with h1 h2
      rw [← h1]
      exact commitDecision_ok_noCheck o reuse led c hsv l2 hd
  · intro hempty
    unfold stepValidation
    rw [hfound]
    dsimp only
    rw [if_pos hempty]

/-- C2 witness: pending changelist `5` matches the commit message and has an
empty opened set; validation succeeds but leaves `check_file_list = true`. -/
theorem claim2_reuse_validation_witness :
    stepValidation emptyReuseOracle (buildReuseIndex emptyReuseOracle.pending) "c1"
      = (none, true) :=
  (claim2_reuse_validation emptyReuseOracle (buildReuseIndex emptyReuseOracle.pending)
    "c1" "5" (by decide)).2.2 rfl

/-- C2 counterexample: a reuse candidate with an empty opened set is found,
yet the cross-overlap check still runs (the commit's file `r/x` is already
open elsewhere and the run fails with a conflict instead of reusing), which
refutes the claim that the empty-opened case skips the check. -/
theorem claim2_counterexample :
    buildReuseIndex emptyReuseOracle.pending (pyStrip (emptyReuseOracle.msg "c1")) = some "5"
  ∧ emptyReuseOracle.openedInCl "5" = []
  ∧ stepValidation emptyReuseOracle (buildReuseIndex emptyReuseOracle.pending) "c1"
      = (none, true)
  ∧ (processCommit defaultArgs emptyReuseOracle
        (buildReuseIndex emptyReuseOracle.pending) ["r/x"] 0 "c1").isConflict = true
  ∧ (mainRun defaultArgs emptyReuseOracle).converted = 0 := by
  decide

/-- C3 (amended): the ReuseIndex maps each trimmed description to exactly one
changelist id, namely the id of the last pending changelist in the gateway's
reported order whose trimmed description matches — a later duplicate
overwrites an earlier one (dict assignment in a loop), not "first wins". -/
theorem claim3_reuse_index_last_wins (cls : List PendingCl) (m : String) :
    buildReuseIndex cls m = lastMatch m cls := by
  unfold buildReuseIndex
  rw [buildReuseIndex_foldl]
  cases h : lastMatch m cls <;> rfl

/-- C3 counterexample: with duplicates `7` then `10` under message `m`
(ascending changelist id), the index returns `10`, the last one, not the
first in ascending order. -/
theorem claim3_counterexample :
    buildReuseIndex [⟨"m", "7"⟩, ⟨"m", "10"⟩] "m" = some "10"
  ∧ buildReuseIndex [⟨"m", "7"⟩, ⟨"m", "10"⟩] "m" ≠ some "7" := by
  decide

/-- C4 (code bug): the claim says the process exits 1 on a pre-flight
failure (dirty working copy) or a fatal reconciliation error.  The code's
`if __name__ == '__main__': main()` discards `main`'s return value (and
`main` never returns `ret_status` after the loop), so the process exits 0 in
both failing scenarios: `main` returns 1 for the dirty working copy yet the
exit status is 0, and a run stopped by a cross-overlap conflict falls
through to the end of `main` (returning `None`) and also exits 0. -/
theorem claim4_exit_status_zero_despite_failure :
    (mainRun defaultArgs dirtyOracle).retVal = some 1
  ∧ processExit (mainRun defaultArgs dirtyOracle) = 0
  ∧ (mainRun defaultArgs conflictOracle).retVal = none
  ∧ (mainRun defaultArgs conflictOracle).converted = 0
  ∧ processExit (mainRun defaultArgs conflictOracle) = 0 := by
  decide

/-- C5 (code bug): with auto-management of the `p4` branch enabled and zero
commits converted (the only commit in range fails its cross-overlap check),
the code still resets the `p4` branch: `commit_list[last_processed_commit_idx]`
with index -1 is Python negative indexing and yields the newest commit of
the range, so `git reset --hard c1` is issued even though `c1` was never
converted — contradicting the code's own comment ("move it to the last
converted commit") and the claim. -/
theorem claim5_p4_branch_reset_despite_zero_converted :
    (mainRun defaultArgs conflictOracle).converted = 0
  ∧ Ev.gitReset "c1" ∈ (mainRun defaultArgs conflictOracle).trace
  ∧ conflictOracle.revList (hashRangeOf (applyP4Work defaultArgs) conflictOracle) = ["c1"] := by
  decide

/-- C6: dry-run takes the identical decision path.  The whole observable
outcome of `main` under `--dry-run` equals the real run's outcome with an
empty mutating-command trace (same return value, same conversion count, same
exception behaviour), and the commit loop agrees step by step: outcome,
ledger and last index are identical and the dry trace adds no command. -/
theorem claim6_dry_run_identical_decisions (args : Args) (o : Oracle) :
    (mainRun { args with dry_run := true } o
      = { mainRun { args with dry_run := false } o with trace := [] })
  ∧ (∀ (reuse : String → Option String) (cs : List String) (idx : Nat) (last : Int)
        (led : List String) (tr : List Ev),
      runLoop { args with dry_run := true } o reuse cs idx last led tr
        = { runLoop { args with dry_run := false } o reuse cs idx last led tr with
            trace := tr }) :=
  ⟨mainRun_dry args o, fun reuse cs idx last led tr => runLoop_dry args o reuse cs idx last led tr⟩

/-- C7: for the `j`-th rename of a materialized commit, the trace contains
exactly one `p4 edit -k` on the resolved old depot path at position
`|preRenameEvents| + 2j`, immediately followed by the `p4 move -k` from the
old to the new path (so a move is never issued before its edit); the number
of edit-k and move-k calls each equals the number of renames; the single
`p4 reopen` that follows the rename block reassigns `git_all_files` — which
contains every rename destination and all Add/Edit/Delete paths — into the
commit's changelist `clIdOf`. -/
theorem claim7_rename_edit_then_move (args : Args) (o : Oracle) (reuse : String → Option String)
    (idx : Nat) (c : String) (j : Nat) (r : String × String)
    (hj : (p4_to_rename o.gitRoot (o.diff c))[j]? = some r) :
    ((materializeEvents args o reuse idx c)[(preRenameEvents o reuse c).length + 2 * j]?
        = some (Ev.p4editK
            ((o.fstatDepot ((p4_to_rename o.gitRoot (o.diff c)).map Prod.fst)).getD j "")))
  ∧ ((materializeEvents args o reuse idx c)[(preRenameEvents o reuse c).length + (2 * j + 1)]?
        = some (Ev.p4moveK r.1 r.2))
  ∧ ((materializeEvents args o reuse idx c).countP isEditK
        = (p4_to_rename o.gitRoot (o.diff c)).length)
  ∧ ((materializeEvents args o reuse idx c).countP isMoveK
        = (p4_to_rename o.gitRoot (o.diff c)).length)
  ∧ ((materializeEvents args o reuse idx c)[(preRenameEvents o reuse c).length
        + 2 * (p4_to_rename o.gitRoot (o.diff c)).length]?
        = some (Ev.p4reopen (clIdOf o reuse idx c) (git_all_files o.gitRoot (o.diff c))))
  ∧ r.2 ∈ git_all_files o.gitRoot (o.diff c)
  ∧ p4_to_add o.gitRoot (o.diff c) ⊆ git_all_files o.gitRoot (o.diff c)
  ∧ p4_to_edit o.gitRoot (o.diff c) ⊆ git_all_files o.gitRoot (o.diff c)
  ∧ p4_to_delete o.gitRoot (o.diff c) ⊆ git_all_files o.gitRoot (o.diff c) := by
  have hjlen : j < (p4_to_rename o.gitRoot (o.diff c)).length := (List.getElem?_eq_some.mp hj).1
  have hme : materializeEvents args o reuse idx c
      = preRenameEvents o reuse c ++
        (renameEvents (o.fstatDepot ((p4_to_rename o.gitRoot (o.diff c)).map Prod.fst)) 0
            (p4_to_rename o.gitRoot (o.diff c)) ++
          (Ev.p4reopen (clIdOf o reuse idx c) (git_all_files o.gitRoot (o.diff c)) ::
            shelfEvents args (clIdOf o reuse idx c))) :=
    materializeEvents_eq args o reuse idx c
  have hget := renameEvents_getElem
    (o.fstatDepot ((p4_to_rename o.gitRoot (o.diff c)).map Prod.fst))
    (p4_to_rename o.gitRoot (o.diff c)) 0 j r hj
  have hlen := renameEvents_length
    (o.fstatDepot ((p4_to_rename o.gitRoot (o.diff c)).map Prod.fst))
    (p4_to_rename o.gitRoot (o.diff c)) 0
  refine ⟨?_, ?_, ?_, ?_, ?_, ?_, ?_, ?_, ?_⟩
  · rw [hme, List.getElem?_append_right (Nat.le_add_right _ _), Nat.add_sub_cancel_left,
      List.getElem?_append_left (by rw [hlen]; omega)]
    simpa using hget.1
  · rw [hme, List.getElem?_append_right (Nat.le_add_right _ _), Nat.add_sub_cancel_left,
      List.getElem?_append_left (by rw [hlen]; omega)]
    exact hget.2
  · rw [hme]
    simp [List.countP_append, List.countP_cons, preRenameEvents_countP_edit,
      renameEvents_countP_edit, shelfEvents_countP_edit, isEditK]
  · rw [hme]
    simp [List.countP_append, List.countP_cons, preRenameEvents_countP_move,
      renameEvents_countP_move, shelfEvents_countP_move, isMoveK]
  · rw [hme, List.getElem?_append_right (Nat.le_add_right _ _), Nat.add_sub_cancel_left,
      List.getElem?_append_right (by rw [hlen]), hlen, Nat.sub_self,
      List.getElem?_cons_zero]
  · exact rename_snd_mem o.gitRoot (o.diff c) r (List.mem_iff_getElem?.mpr ⟨j, hj⟩)
  · exact map_filter_entryPath_subset o.gitRoot _ _
  · exact map_filter_entryPath_subset o.gitRoot _ _
  · exact map_filter_entryPath_subset o.gitRoot _ _

/-- C7 witness: for the single rename `r/x -> r/y`, the materialization
trace has `p4 edit -k r/x` at position 2 immediately followed by
`p4 move -k r/x r/y` at position 3. -/
theorem claim7_rename_edit_then_move_witness :
    ((materializeEvents defaultArgs renameOracle
        (buildReuseIndex renameOracle.pending) 0 "c1")[2]? = some (Ev.p4editK "r/x"))
  ∧ ((materializeEvents defaultArgs renameOracle
        (buildReuseIndex renameOracle.pending) 0 "c1")[3]?
      = some (Ev.p4moveK "r/x" "r/y")) :=
  ⟨(claim7_rename_edit_then_move defaultArgs renameOracle
      (buildReuseIndex renameOracle.pending) 0 "c1" 0 ("r/x", "r/y") (by decide)).1,
   (claim7_rename_edit_then_move defaultArgs renameOracle
      (buildReuseIndex renameOracle.pending) 0 "c1" 0 ("r/x", "r/y") (by decide)).2.1⟩

/-- C8: a run whose computed commit range is empty returns before any
external p4 command: the reported conversion count is 0 and the trace of
mutating commands is empty (in particular it contains no mutating
target-gateway call). -/
theorem claim8_empty_range_no_mutation (args : Args) (o : Oracle)
    (h : o.revList (hashRangeOf (applyP4Work args) o) = []) :
    (mainRun args o).converted = 0 ∧ (mainRun args o).trace = []
      ∧ (mainRun args o).trace.all (fun e => !e.isP4Mutation) = true := by
  unfold mainRun
  split
  · exact ⟨rfl, rfl, rfl⟩
  · dsimp only
    rw [if_pos h]
    exact ⟨rfl, rfl, rfl⟩

/-- C8 witness. -/
theorem claim8_empty_range_no_mutation_witness :
    (mainRun defaultArgs emptyRangeOracle).converted = 0
  ∧ (mainRun defaultArgs emptyRangeOracle).trace = []
  ∧ (mainRun defaultArgs emptyRangeOracle).trace.all (fun e => !e.isP4Mutation) = true :=
  claim8_empty_range_no_mutation defaultArgs emptyRangeOracle rfl

/-- C9: whenever `_p4.run_command` returns the record stream (no `only1`
extraction requested), the returned list is the external records with the
summary record appended: it is non-empty, its last record is
`{"returncode": rc, "ok": rc == 0}`, and that record's `ok` field states
whether the external command exited with status 0. -/
theorem claim9_run_command_summary (raw : List PEntry) (rc : Int) (re : Bool)
    (l : List PEntry) (h : run_command raw rc re none = .ok (.stream l)) :
    l ≠ [] ∧ l.getLast? = some (summaryEntry rc)
      ∧ (summaryEntry rc).fields.lookup "ok" = some (.bool (decide (rc = 0)))
      ∧ (summaryEntry rc).fields.lookup "returncode" = some (.int rc) := by
  unfold run_command at h
  split at h
  · exact absurd h (by simp)
  · dsimp only at h
    injection h with h1
    injection h1 with h2
    refine ⟨?_, ?_, rfl, rfl⟩
    · rw [← h2]
      simp
    · rw [← h2]
      simp

/-- C9 witness. -/
theorem claim9_run_command_summary_witness :
    ([(⟨[("code", PVal.str "stat")]⟩ : PEntry), summaryEntry 0] ≠ [])
  ∧ ([(⟨[("code", PVal.str "stat")]⟩ : PEntry), summaryEntry 0].getLast?
      = some (summaryEntry 0))
  ∧ ((summaryEntry 0).fields.lookup "ok" = some (.bool (decide ((0 : Int) = 0))))
  ∧ ((summaryEntry 0).fields.lookup "returncode" = some (.int 0)) :=
  claim9_run_command_summary [⟨[("code", PVal.str "stat")]⟩] 0 true
    [⟨[("code", PVal.str "stat")]⟩, summaryEntry 0] rfl

/-- C10: a revert is only ever issued for the changelist shelved in the same
commit iteration (any `p4 revert` in a commit's materialization trace is
accompanied by a `p4 shelve` of the same changelist), and with `--no-shelve`
no revert appears in the commit's trace nor anywhere in the whole run's
trace, regardless of `--no-revert`. -/
theorem claim10_revert_requires_shelve (args : Args) (o : Oracle)
    (reuse : String → Option String) (idx : Nat) (c : String) :
    (∀ cl, Ev.p4revert cl ∈ materializeEvents args o reuse idx c →
        Ev.p4shelve cl ∈ materializeEvents args o reuse idx c)
  ∧ (args.no_shelve = true →
        (materializeEvents args o reuse idx c).all (fun e => !e.isRevert) = true)
  ∧ (args.no_shelve = true →
        (mainRun args o).trace.all (fun e => !e.isRevert) = true) := by
  refine ⟨?_, ?_, ?_⟩
  · intro cl h
    obtain ⟨hns, hnr, hcl⟩ := revert_mem_materialize args o reuse idx c cl h
    subst hcl
    rw [materializeEvents_eq]
    exact List.mem_append_right _ (List.mem_append_right _
      (List.mem_cons_of_mem _ (shelve_mem_shelfEvents args _ hns)))
  · intro hs
    exact materialize_no_revert args o reuse idx c hs
  · intro hs
    exact mainRun_no_revert args o hs

/-- C10 witness: a full run with `--no-shelve` issues no revert command. -/
theorem claim10_revert_requires_shelve_witness :
    (mainRun noShelveArgs baseOracle).trace.all (fun e => !e.isRevert) = true :=
  (claim10_revert_requires_shelve noShelveArgs baseOracle
    (buildReuseIndex baseOracle.pending) 0 "c1").2.2 rfl

end Git4P4
